import Mathlib

/-!
Verification of the voice-slicer core: a shallow embedding of the
ordering-key allocator, segment merge, diff-based reconciliation engine and
schema migrator (src/src/utils.py, src/src/json_loader.py,
src/src/splitter.py, src/split.py), with theorems checking the
natural-language specification against the code.

Modelling conventions:
* Python unbounded `int` becomes `Int`; fractional-second timestamps
  (Python `float`) are idealized as `Rat`.
* Python `//` (floor division) becomes `Int.fdiv`.
* Python `None` becomes `Option.none`; `dict` becomes an insertion-ordered
  association list `List (String × _)` with unique keys where the source
  relies on dict semantics.
* The materialized side (output directory) is a list of existing filenames
  threaded through the functions that the source performs I/O with.
-/

/-- `determine_index` from src/src/utils.py (the ordering-key allocator).
`before`/`after` are the neighboring `(index, index_sub)` pairs or `none`.
An absent `before` is treated as `(0, 0)`.  An absent `after` is treated as
`(+inf, 0)` in the source, which makes rule 1 (`N + 1 < M`) always fire, so
the `none` branch returns `(N + 1, 0)` directly.  `Int.fdiv` is Python's
floor division `//`. -/
def determine_index (before after : Option (Int × Int)) (l : Int)
    (index_sub_digits : Nat) : Int × Int :=
  let max_index_sub : Int := 10 ^ index_sub_digits - 1
  let N : Int := (before.getD (0, 0)).1
  let n : Int := (before.getD (0, 0)).2
  match after with
  | none => (N + 1, 0)
  | some (M, m) =>
    if N + 1 < M ∨ (N + 1 = M ∧ m ≠ 0) then
      (N + 1, 0)
    else if N + 1 = M ∧ m = 0 then
      (N, min (n + (max_index_sub - n).fdiv (l + 1)) max_index_sub)
    else
      (N, min (n + (m - n).fdiv (l + 1)) max_index_sub)

/-- Strict lexicographic order on ordering keys `(index, index_sub)`,
Python's tuple `<`. -/
def keyLt (a b : Int × Int) : Prop :=
  a.1 < b.1 ∨ (a.1 = b.1 ∧ a.2 < b.2)

instance (a b : Int × Int) : Decidable (keyLt a b) := by
  unfold keyLt; infer_instance

/-- Python truth: character removed by `sanitize_filename`'s invalid-char
class `[\\/:*?"<>|]` (src/src/utils.py). -/
def invalidFilenameChar (c : Char) : Bool :=
  c = '\\' || c = '/' || c = ':' || c = '*' || c = '?' || c = '"' ||
    c = '<' || c = '>' || c = '|'

/-- Collapse every run of consecutive underscores to a single underscore,
Python's `re.sub(r'_+', '_', s)`. -/
def collapseUnderscoreRuns : List Char → List Char
  | [] => []
  | [c] => [c]
  | a :: b :: rest =>
    if a = '_' && b = '_' then collapseUnderscoreRuns (b :: rest)
    else a :: collapseUnderscoreRuns (b :: rest)

/-- Python `s.lstrip('_')`. -/
def stripUnderscoresLeft (l : List Char) : List Char :=
  l.dropWhile (· = '_')

/-- Python `s.rstrip('_')`. -/
def stripUnderscoresRight (l : List Char) : List Char :=
  (l.reverse.dropWhile (· = '_')).reverse

/-- `sanitize_filename` from src/src/utils.py: drop path-hostile
characters, spaces to underscores, collapse underscore runs, strip
underscores at both ends, truncate to `max_length` (re-stripping trailing
underscores), fall back to "untitled" when empty. -/
def sanitize_filename (text : String) (max_length : Option Nat) : String :=
  let s1 := text.toList.filter (fun c => !(invalidFilenameChar c))
  let s2 := s1.map (fun c => if c = ' ' then '_' else c)
  let s3 := collapseUnderscoreRuns s2
  let s4 := stripUnderscoresRight (stripUnderscoresLeft s3)
  let s5 :=
    match max_length with
    | some L => if L < s4.length then stripUnderscoresRight (s4.take L) else s4
    | none => s4
  if s5.isEmpty then "untitled" else String.mk s5

/-- Python `str.zfill`: left-pad with '0' to `width`, keeping a leading
sign in front of the padding. -/
def pyZfill (s : String) (width : Nat) : String :=
  if width ≤ s.length then s
  else
    match s.toList with
    | [] => String.mk (List.replicate width '0')
    | c :: rest =>
      if c = '-' ∨ c = '+' then
        String.mk (c :: (List.replicate (width - s.length) '0' ++ rest))
      else
        String.mk (List.replicate (width - s.length) '0' ++ (c :: rest))

/-- Python `str(x)` for a value that is an int or `None` (the source
annotates these parameters `int`, but callers pass `segment["index"]`,
which can be `None` at runtime). -/
def pyStrOfOptInt : Option Int → String
  | none => "None"
  | some n => toString n

/-- `format_index_filename` from src/src/utils.py: build
`<index>[-<index_sub>]_<sanitized text><ext>`; the sub-index part is
omitted when `index_sub` is `0` or `None` (Python truthiness
`if index_sub and index_sub != 0`). -/
def format_index_filename (index index_sub : Option Int)
    (text extension : String) (index_digits index_sub_digits : Nat)
    (max_text_length : Option Nat) : String :=
  let ext := if extension.startsWith "." then extension else "." ++ extension
  let index_str := pyZfill (pyStrOfOptInt index) index_digits
  let index_part :=
    match index_sub with
    | some s =>
      if s ≠ 0 then index_str ++ "-" ++ pyZfill (toString s) index_sub_digits
      else index_str
    | none => index_str
  let text_part := sanitize_filename text max_text_length
  index_part ++ "_" ++ text_part ++ ext

/-- `format_index_string` from src/src/utils.py: same index formatting
used for the template variable, without text and extension. -/
def format_index_string (index index_sub : Option Int)
    (index_digits index_sub_digits : Nat) : String :=
  let index_str := pyZfill (pyStrOfOptInt index) index_digits
  match index_sub with
  | some s =>
    if s ≠ 0 then index_str ++ "-" ++ pyZfill (toString s) index_sub_digits
    else index_str
  | none => index_str

/-- A segment value: the five persisted fields of one entry of a
version-2 `segments` map (src/src/splitter.py).  `stop` models the source
field `end` (a reserved word in Lean); times are idealized rationals. -/
structure Seg where
  start : Rat
  stop : Rat
  text : String
  index : Option Int := none
  index_sub : Option Int := none
deriving Repr, DecidableEq

/-- A Python dict of segments keyed by id, as an insertion-ordered
association list. -/
abbrev SegMap := List (String × Seg)

/-- The per-entry `seg.copy()` loop both branches of `merge_segments`
perform: rebuild the dict entry by entry (value-identical). -/
def copySegMap (segs : SegMap) : SegMap :=
  segs.foldl (fun acc p => acc ++ [(p.1, p.2)]) []

/-- `merge_segments` from src/src/json_loader.py: a non-empty
`edit_segments` overlay replaces the transcript wholesale; an empty
overlay keeps the transcript. -/
def merge_segments (transcript_segments edit_segments : SegMap) : SegMap :=
  if !edit_segments.isEmpty then copySegMap edit_segments
  else copySegMap transcript_segments

/-- `AudioSplitter.generate_filename` from src/src/splitter.py: name a
segment without exporting.  (The source's `filename_template` parameter is
accepted but never used — it is not forwarded to `format_index_filename`.)
`ext` is `self.audio_path.suffix`, `maxLen` is `self.max_filename_length`. -/
def generate_filename (seg : Seg) (index_digits index_sub_digits : Nat)
    (ext : String) (maxLen : Option Nat) : String :=
  format_index_filename seg.index seg.index_sub seg.text ext
    index_digits index_sub_digits maxLen

/-- One entry of the `confirmed` list `assign_indices` builds from the
existing segments: `{"index": ..., "index_sub": seg.get("index_sub", 0) or 0,
"start": ...}`. -/
structure ConfEntry where
  index : Int
  index_sub : Int
  start : Rat
deriving Repr, DecidableEq

/-- The `confirmed` list of `AudioSplitter.assign_indices`: indices of
existing segments that carry an index, sorted by start time (`None` or `0`
sub-index becomes `0` via Python's `or 0`). -/
def buildConfirmed (existing_segments : Option SegMap) : List ConfEntry :=
  let raw :=
    match existing_segments with
    | none => []
    | some ex => ex.filterMap (fun (p : String × Seg) =>
        match p.2.index with
        | some i => some (ConfEntry.mk i (p.2.index_sub.getD 0) p.2.start)
        | none => none)
  raw.mergeSort (fun a b => decide (a.start ≤ b.start))

/-- The first neighbor scan of `assign_indices`: walk the start-sorted
`confirmed` list; the last entry with `start < s` becomes `before`, and the
scan breaks at the first entry with `start > s`, which becomes `after`. -/
def scanConfirmed (s : Rat) :
    List ConfEntry → Option (Int × Int) →
      Option (Int × Int) × Option (Int × Int)
  | [], before => (before, none)
  | c :: rest, before =>
    if c.start < s then scanConfirmed s rest (some (c.index, c.index_sub))
    else if s < c.start then (before, some (c.index, c.index_sub))
    else scanConfirmed s rest before

/-- Python tuple `<` on `(index, index_sub)` pairs, as a Bool. -/
def keyLtB (a b : Int × Int) : Bool :=
  a.1 < b.1 || (a.1 == b.1 && a.2 < b.2)

/-- The second neighbor scan of `assign_indices`: walk the segments already
processed in this pass (`result`), tightening `before` to the largest key
with `start < s` and `after` to the smallest key with `start > s`. -/
def scanResult (s : Rat) :
    SegMap → Option (Int × Int) → Option (Int × Int) →
      Option (Int × Int) × Option (Int × Int)
  | [], before, after => (before, after)
  | (_, r) :: rest, before, after =>
    match r.index with
    | none => scanResult s rest before after
    | some ri =>
      if r.start < s then
        let r_idx := (ri, r.index_sub.getD 0)
        let before' :=
          match before with
          | none => some r_idx
          | some b => if keyLtB b r_idx then some r_idx else before
        scanResult s rest before' after
      else if s < r.start then
        let r_idx := (ri, r.index_sub.getD 0)
        let after' :=
          match after with
          | none => some r_idx
          | some a => if keyLtB r_idx a then some r_idx else after
        scanResult s rest before after'
      else scanResult s rest before after

/-- The main loop of `AudioSplitter.assign_indices` over the start-sorted
items: keyed segments are copied; unkeyed segments get a key from
`determine_index` against the neighbors found in `confirmed` and in the
result built so far; a fresh sub-key of `0` is stored as `None`. -/
def assignGo (confirmed : List ConfEntry) (D : Nat) :
    List (String × Seg) → SegMap → SegMap
  | [], result => result
  | (sid, seg) :: rest, result =>
    match seg.index with
    | some _ => assignGo confirmed D rest (result ++ [(sid, seg)])
    | none =>
      let scanned := scanResult seg.start result
        (scanConfirmed seg.start confirmed none).1
        (scanConfirmed seg.start confirmed none).2
      let alloc := determine_index scanned.1 scanned.2 1 D
      let seg' := { seg with
        index := some alloc.1,
        index_sub := if alloc.2 ≠ 0 then some alloc.2 else none }
      assignGo confirmed D rest (result ++ [(sid, seg')])

/-- `AudioSplitter.assign_indices` from src/src/splitter.py. -/
def assign_indices (segments : SegMap) (existing_segments : Option SegMap)
    (index_sub_digits : Nat) : SegMap :=
  let sorted_items := segments.mergeSort
    (fun a b => decide (a.2.start ≤ b.2.start))
  assignGo (buildConfirmed existing_segments) index_sub_digits
    sorted_items []

/-- Step 1 of `AudioSplitter.export_diff`: for every previous segment whose
id is gone from the merged set and that carries an index, recompute its
filename and delete the file; the name is recorded only when
`delete_file` returned `True` (the file existed).  `fs` is the set of
files present in the output directory; note the source applies this step
regardless of `force`. -/
def deletePhase (merged : SegMap) (d sd : Nat) (ext : String)
    (maxLen : Option Nat) :
    SegMap → List String → List String × List String
  | [], fs => ([], fs)
  | (sid, prev) :: rest, fs =>
    if (merged.lookup sid).isNone && prev.index.isSome then
      let filename := generate_filename prev d sd ext maxLen
      if filename ∈ fs then
        let tail := deletePhase merged d sd ext maxLen rest (fs.erase filename)
        (filename :: tail.1, tail.2)
      else deletePhase merged d sd ext maxLen rest fs
    else deletePhase merged d sd ext maxLen rest fs

/-- The running state of step 3 of `AudioSplitter.export_diff`:
accumulated action lists, skip counter, the new canonical record
(`result_segments`) and the files on disk. -/
structure StepState where
  exported : List String
  renamed : List (String × String)
  skipped : Nat
  result : SegMap
  fs : List String
deriving Repr, DecidableEq

/-- The body of step 3 of `AudioSplitter.export_diff` for one segment:
classify against the previous entry of the same id (ignored under
`force`), then export / rename / re-export-after-missing-old / skip.
`rename_file` succeeds iff the old file exists; `delete_file`'s result is
ignored here; `export_segment` writes (or overwrites) the new file and
returns its name.  Every branch records the segment's five fields into the
result map. -/
def processSegment (previous : SegMap) (force : Bool) (d sd : Nat)
    (ext : String) (maxLen : Option Nat) (st : StepState)
    (sid : String) (seg : Seg) : StepState :=
  let new_filename := generate_filename seg d sd ext maxLen
  let st1 :=
    match (if force then none else previous.lookup sid) with
    | some prev =>
      let old_filename := generate_filename prev d sd ext maxLen
      if |seg.start - prev.start| > 1/1000 ∨ |seg.stop - prev.stop| > 1/1000 then
        let fs1 :=
          if old_filename ≠ new_filename then st.fs.erase old_filename
          else st.fs
        let fs2 := if new_filename ∈ fs1 then fs1 else new_filename :: fs1
        { st with exported := st.exported ++ [new_filename], fs := fs2 }
      else if seg.text ≠ prev.text ∨ old_filename ≠ new_filename then
        if old_filename ∈ st.fs then
          { st with renamed := st.renamed ++ [(old_filename, new_filename)],
                    fs := new_filename :: st.fs.erase old_filename }
        else
          let fs2 := if new_filename ∈ st.fs then st.fs else new_filename :: st.fs
          { st with exported := st.exported ++ [new_filename], fs := fs2 }
      else
        { st with skipped := st.skipped + 1 }
    | none =>
      let fs2 := if new_filename ∈ st.fs then st.fs else new_filename :: st.fs
      { st with exported := st.exported ++ [new_filename], fs := fs2 }
  { st1 with result := st1.result ++ [(sid, seg)] }

/-- Step 3 of `AudioSplitter.export_diff`: fold `processSegment` over the
keyed segments in order. -/
def processList (previous : SegMap) (force : Bool) (d sd : Nat)
    (ext : String) (maxLen : Option Nat) :
    List (String × Seg) → StepState → StepState
  | [], st => st
  | (sid, seg) :: rest, st =>
    processList previous force d sd ext maxLen rest
      (processSegment previous force d sd ext maxLen st sid seg)

/-- The result dict of `AudioSplitter.export_diff`:
`(exported, renamed, deleted, skipped, segments)`. -/
structure DiffPlan where
  exported : List String
  renamed : List (String × String)
  deleted : List String
  skipped : Nat
  segments : SegMap
deriving Repr, DecidableEq

/-- `AudioSplitter.export_diff` from src/src/splitter.py: delete phase,
key assignment (`previous` is ignored as existing keys under `force`),
then per-segment classification.  Returns the plan together with the final
file set (the model of the side effects on the output directory). -/
def export_diff (fs : List String) (merged previous : SegMap)
    (index_digits index_sub_digits : Nat) (ext : String)
    (maxLen : Option Nat) (force : Bool) : DiffPlan × List String :=
  let del := deletePhase merged index_digits index_sub_digits ext maxLen
    previous fs
  let withIdx := assign_indices merged
    (if force then none else some previous) index_sub_digits
  let final := processList previous force index_digits index_sub_digits ext
    maxLen withIdx
    { exported := [], renamed := [], skipped := 0, result := [], fs := del.2 }
  ({ exported := final.exported, renamed := final.renamed, deleted := del.1,
     skipped := final.skipped, segments := final.result }, final.fs)

/-- The artifact names step 1 of `export_diff` tries to delete: previous
entries whose id is absent from the merged set and that carry an index,
named from their previous key (order of `previous`). -/
def pendingDeletionNames (merged previous : SegMap) (d sd : Nat)
    (ext : String) (maxLen : Option Nat) : List String :=
  (previous.filter
      (fun p => (merged.lookup p.1).isNone && p.2.index.isSome)).map
    (fun p => generate_filename p.2 d sd ext maxLen)

/-- A sample previous segment used in concrete instances. -/
def segA : Seg :=
  { start := 0, stop := 1, text := "a", index := some 1 }

/-- A sample working segment: same times and key as `segA`, new text. -/
def segB : Seg :=
  { start := 0, stop := 1, text := "b", index := some 1 }

/-- A raw persisted segment as read from JSON: each field the loader code
touches may be absent (src/src/json_loader.py). -/
structure RawSeg where
  start : Option Rat := none
  stop : Option Rat := none
  text : Option String := none
  index : Option Int := none
  index_sub : Option Int := none
deriving Repr, DecidableEq

/-- The two shapes a raw `segments` value can take: a legacy JSON array,
or a version-2 id-keyed object. -/
inductive RawSegments where
  | asList : List RawSeg → RawSegments
  | asDict : List (String × RawSeg) → RawSegments
deriving Repr, DecidableEq

/-- The version-2 `output_format` object (migration writes these
defaults). -/
structure OutputFormat where
  index_digits : Nat
  index_sub_digits : Nat
  filename_template : String
  margin_before : Rat
  margin_after : Rat
deriving Repr, DecidableEq

/-- A raw persisted record: the fields `load_transcript_json`,
`migrate_transcript` and `validate_transcript_v2` inspect.
(`output_format`, when present, is modelled as a well-formed object; the
source only checks `isinstance(output_format, dict)` on it.) -/
structure RawRecord where
  version : Option Int := none
  source_file : Option String := none
  output_format : Option OutputFormat := none
  segments : Option RawSegments := none
  index_digits : Option Nat := none
deriving Repr, DecidableEq

/-- Failures of loading/migration: `schemaError` models `ValueError`
(malformed or unsupported record); `keyError` and `typeError` model the
Python exceptions escaping from dynamic access (`data["source_file"]` on a
missing key, iterating a non-list as the legacy segment array). -/
inductive LoadError where
  | schemaError : String → LoadError
  | keyError : String → LoadError
  | typeError : String → LoadError
deriving Repr, DecidableEq

/-- Python `d["k"]`: the value, or `KeyError` when absent. -/
def reqField {α : Type} (v : Option α) (name : String) :
    Except LoadError α :=
  match v with
  | some x => Except.ok x
  | none => Except.error (LoadError.keyError name)

/-- The segment loop of `migrate_transcript`: `enumerate(segments,
start=i)` building `str(i) ↦ {start, end, text, index, index_sub}`;
`start`/`end`/`text` are accessed directly (KeyError when absent), while
`index`/`index_sub` use `.get` (default `None`). -/
def migrateSegs : Nat → List RawSeg → Except LoadError (List (String × RawSeg))
  | _, [] => Except.ok []
  | i, seg :: rest => do
    let s ← reqField seg.start "start"
    let e ← reqField seg.stop "end"
    let t ← reqField seg.text "text"
    let tail ← migrateSegs (i + 1) rest
    Except.ok ((toString i,
      { start := some s, stop := some e, text := some t,
        index := seg.index, index_sub := seg.index_sub }) :: tail)

/-- `migrate_transcript` from src/src/json_loader.py: convert the legacy
array shape to the version-2 object shape with 1-based sequential string
ids and default output format.  The segment loop runs before the
`old_data["source_file"]` access, matching the source's evaluation
order. -/
def migrate_transcript (old_data : RawRecord) :
    Except LoadError RawRecord := do
  let segsList ←
    match old_data.segments with
    | none => Except.ok []
    | some (RawSegments.asList l) => Except.ok l
    | some (RawSegments.asDict _) =>
      Except.error (LoadError.typeError "segments")
  let segs ← migrateSegs 1 segsList
  let sf ← reqField old_data.source_file "source_file"
  Except.ok
    { version := some 2,
      source_file := some sf,
      output_format := some
        { index_digits := old_data.index_digits.getD 3,
          index_sub_digits := 3,
          filename_template := "{index}_{basename}",
          margin_before := 1 / 10,
          margin_after := 2 / 10 },
      segments := some (RawSegments.asDict segs),
      index_digits := none }

/-- The per-segment loop of `validate_transcript_v2`: each segment must
carry `start`, `end` and `text`. -/
def validateSegsV2 : List (String × RawSeg) → Except LoadError Unit
  | [] => Except.ok ()
  | (sid, seg) :: rest =>
    if seg.start.isNone then
      Except.error (LoadError.schemaError
        ("Segment missing start field: " ++ sid))
    else if seg.stop.isNone then
      Except.error (LoadError.schemaError
        ("Segment missing end field: " ++ sid))
    else if seg.text.isNone then
      Except.error (LoadError.schemaError
        ("Segment missing text field: " ++ sid))
    else validateSegsV2 rest

/-- `validate_transcript_v2` from src/src/json_loader.py: version must be
2, `source_file` and `segments` must be present, `segments` must be an
object, and every segment must carry `start`/`end`/`text`.  All failures
are `ValueError` (`schemaError`). -/
def validate_transcript_v2 (data : RawRecord) : Except LoadError Unit :=
  if data.version ≠ some 2 then
    Except.error (LoadError.schemaError "Expected version 2")
  else if data.source_file.isNone then
    Except.error (LoadError.schemaError "JSON missing source_file field")
  else
    match data.segments with
    | none => Except.error (LoadError.schemaError "JSON missing segments field")
    | some (RawSegments.asList _) =>
      Except.error (LoadError.schemaError "segments must be an object (dict)")
    | some (RawSegments.asDict d) => validateSegsV2 d

/-- `load_transcript_json` from src/src/json_loader.py with
`auto_migrate = True` (the claims' setting), after the JSON has been
parsed: dispatch on the version field — absent: legacy migration;
`2`: validate and pass the record through unchanged; anything else:
unsupported-version failure. -/
def load_transcript_json (data : RawRecord) : Except LoadError RawRecord :=
  match data.version with
  | none => migrate_transcript data
  | some v =>
    if v = 2 then
      match validate_transcript_v2 data with
      | Except.ok _ => Except.ok data
      | Except.error e => Except.error e
    else
      Except.error (LoadError.schemaError
        ("Unsupported JSON version: " ++ toString v))

/-- Spec-side well-formedness of a version-2 record, as
`validate_transcript_v2` (beyond the version check) demands it:
`source_file` present, `segments` present as an object, every segment
carrying `start`, `end` and `text`. -/
def validV2 (data : RawRecord) : Prop :=
  data.source_file.isSome ∧
  ∃ d, data.segments = some (RawSegments.asDict d) ∧
    ∀ p ∈ d, p.2.start.isSome ∧ p.2.stop.isSome ∧ p.2.text.isSome

/-- Spec-side description of the migrated segment map: sequential string
ids starting at `i`, list order, each entry keeping the raw segment's
fields. -/
def migratedSegmentsSpec (i : Nat) : List RawSeg → List (String × RawSeg)
  | [] => []
  | seg :: rest => (toString i, seg) :: migratedSegmentsSpec (i + 1) rest

/-- A sample legacy flat-indexed raw segment. -/
def rawSegA : RawSeg :=
  { start := some 0, stop := some 1, text := some "a", index := some 7 }

/-- A sample legacy (pre-versioning) record with one flat-indexed
segment. -/
def legacyRec : RawRecord :=
  { source_file := some "src.wav",
    segments := some (RawSegments.asList [rawSegA]) }

/-- A sample well-formed version-2 record. -/
def v2Valid : RawRecord :=
  { version := some 2, source_file := some "s.wav",
    segments := some (RawSegments.asDict
      [("1", { start := some 0, stop := some 1, text := some "a" })]) }

/-- A version-2 record with `source_file` missing. -/
def v2MissingSource : RawRecord :=
  { version := some 2, segments := some (RawSegments.asDict []) }

/-- C1: the allocator follows the spec's three rules (absent `before` is
`(0,0)`, absent `after` is `(+inf,0)`): rule 1 returns `(N+1, 0)` when a
primary slot is free, rule 2 splits index `N`'s remaining sub-range, rule 3
splits between the two sub-keys.  `Int.fdiv` is the mathematical floor of
the quotient, as in the spec's formulas. -/
theorem determine_index_matches_spec_cases
    (N n M m l : Int) (D : Nat)
    (hN : 0 ≤ N) (hn : 0 ≤ n) (hM : 0 ≤ M) (hm : 0 ≤ m)
    (hl : 1 ≤ l) (hD : 1 ≤ D) :
    (determine_index none (some (M, m)) l D =
      determine_index (some (0, 0)) (some (M, m)) l D) ∧
    (determine_index (some (N, n)) none l D = (N + 1, 0)) ∧
    (N + 1 < M ∨ (N + 1 = M ∧ m ≠ 0) →
      determine_index (some (N, n)) (some (M, m)) l D = (N + 1, 0)) ∧
    (N + 1 = M ∧ m = 0 →
      determine_index (some (N, n)) (some (M, m)) l D =
        (N, min (n + (10 ^ D - 1 - n).fdiv (l + 1)) (10 ^ D - 1))) ∧
    (N = M →
      determine_index (some (N, n)) (some (M, m)) l D =
        (N, min (n + (m - n).fdiv (l + 1)) (10 ^ D - 1))) := by
  refine ⟨rfl, rfl, ?_, ?_, ?_⟩
  · intro h
    simp only [determine_index, Option.getD_some, if_pos h]
  · rintro ⟨h1, h2⟩
    have hng : ¬ (N + 1 < M ∨ (N + 1 = M ∧ m ≠ 0)) := by
      omega
    simp only [determine_index, Option.getD_some, if_neg hng,
      if_pos (And.intro h1 h2)]
  · intro h
    have hng : ¬ (N + 1 < M ∨ (N + 1 = M ∧ m ≠ 0)) := by
      omega
    have hng2 : ¬ (N + 1 = M ∧ m = 0) := by omega
    simp only [determine_index, Option.getD_some, if_neg hng, if_neg hng2]

/-- Witness for C1 at concrete inputs. -/
theorem determine_index_matches_spec_cases_witness :
    determine_index (some (2, 0)) (some (7, 0)) 1 3 = (3, 0) :=
  (determine_index_matches_spec_cases 2 0 7 0 1 3 (by decide) (by decide)
    (by decide) (by decide) (by decide) (by decide)).2.2.1
    (Or.inl (by decide))

/-- C7 counterexample: the spec's first worked example predicts `(5, 500)`
for `before=(5,0), after=(6,0), l=1, subDigits=3`, but the code computes
`0 + (999 - 0) // 2 = 499`, so the allocator returns `(5, 499)`. -/
theorem determine_index_example_cex :
    determine_index (some (5, 0)) (some (6, 0)) 1 3 ≠ (5, 500) := by
  decide

/-- C7 amended: the allocator returns `(5, 499)` (not `(5, 500)`) for
`before=(5,0), after=(6,0), l=1, subDigits=3`, and `(5, 749)` for
`before=(5,500), after=(6,0), l=1, subDigits=3`. -/
theorem determine_index_examples :
    determine_index (some (5, 0)) (some (6, 0)) 1 3 = (5, 499) ∧
    determine_index (some (5, 500)) (some (6, 0)) 1 3 = (5, 749) := by
  constructor <;> decide

/-- C2 counterexample: for `before=(5,998), after=(6,0), l=1, subDigits=3`
strict room remains (the key `(5,999)` with sub-key `999 ≤ 10^3 - 1` lies
strictly between them), yet the allocator computes
`998 + (999 - 998) // 2 = 998` and returns `(5, 998)`, which does not sort
strictly above `before`. -/
theorem allocate_between_cex :
    (keyLt (5, 998) ((5 : Int), (999 : Int)) ∧
      keyLt ((5 : Int), (999 : Int)) (6, 0) ∧
      (0 : Int) ≤ 999 ∧ (999 : Int) ≤ 10 ^ 3 - 1) ∧
    determine_index (some (5, 998)) (some (6, 0)) 1 3 = (5, 998) ∧
    ¬ keyLt ((5 : Int), (998 : Int))
        (determine_index (some (5, 998)) (some (6, 0)) 1 3) := by
  refine ⟨by decide, by decide, by decide⟩

/-- C2 amended: the allocator's key sorts strictly between `before` and
`after` whenever the sub-key gap toward the binding bound leaves room for
`l` evenly spread insertions (at least `l + 1` free sub-keys): always in
rule 1; in rule 2 when `n + l + 1 ≤ 10^D - 1`; in rule 3 when
`n + l + 1 ≤ m`.  (The claim's weaker premise — merely one key strictly
between the neighbors — is not sufficient.) -/
theorem allocate_strictly_between_of_room
    (N n M m l : Int) (D : Nat)
    (hl : 1 ≤ l) (hD : 1 ≤ D)
    (hn0 : 0 ≤ n) (hnB : n ≤ 10 ^ D - 1)
    (hm0 : 0 ≤ m) (hmB : m ≤ 10 ^ D - 1)
    (hlt : keyLt (N, n) (M, m))
    (hroom : N + 1 < M ∨ (N + 1 = M ∧ m ≠ 0) ∨
      (N + 1 = M ∧ m = 0 ∧ n + l + 1 ≤ 10 ^ D - 1) ∨
      (N = M ∧ n + l + 1 ≤ m)) :
    keyLt (N, n) (determine_index (some (N, n)) (some (M, m)) l D) ∧
    keyLt (determine_index (some (N, n)) (some (M, m)) l D) (M, m) := by
  rcases hroom with h | ⟨h1, h2⟩ | ⟨h1, h2, h3⟩ | ⟨h1, h2⟩
  · simp only [determine_index, Option.getD_some, if_pos (Or.inl h), keyLt]
    omega
  · simp only [determine_index, Option.getD_some,
      if_pos (Or.inr (And.intro h1 h2)), keyLt]
    omega
  · have hng : ¬ (N + 1 < M ∨ (N + 1 = M ∧ m ≠ 0)) := by omega
    have hfd : 1 ≤ (10 ^ D - 1 - n).fdiv (l + 1) := by
      rw [Int.fdiv_eq_ediv _ (by omega)]
      exact Int.le_ediv_of_mul_le (by omega) (by omega)
    simp only [determine_index, Option.getD_some, if_neg hng,
      if_pos (And.intro h1 h2), keyLt]
    refine ⟨Or.inr ⟨trivial, lt_min (by omega) (by omega)⟩, Or.inl (by omega)⟩
  · have hng : ¬ (N + 1 < M ∨ (N + 1 = M ∧ m ≠ 0)) := by omega
    have hng2 : ¬ (N + 1 = M ∧ m = 0) := by omega
    have hfd : 1 ≤ (m - n).fdiv (l + 1) := by
      rw [Int.fdiv_eq_ediv _ (by omega)]
      exact Int.le_ediv_of_mul_le (by omega) (by omega)
    have hmul : (m - n).fdiv (l + 1) * (l + 1) ≤ m - n := by
      rw [Int.fdiv_eq_ediv _ (by omega)]
      exact Int.ediv_mul_le _ (by omega)
    have h2le : (m - n).fdiv (l + 1) * 2 ≤ (m - n).fdiv (l + 1) * (l + 1) :=
      Int.mul_le_mul_of_nonneg_left (by omega) (by omega)
    simp only [determine_index, Option.getD_some, if_neg hng, if_neg hng2,
      keyLt]
    refine ⟨Or.inr ⟨trivial, lt_min (by omega) (by omega)⟩,
      Or.inr ⟨h1, lt_of_le_of_lt (min_le_left _ _) (by omega)⟩⟩

/-- Witness for the amended C2 at `before=(5,500), after=(6,0), l=1, D=3`. -/
theorem allocate_strictly_between_of_room_witness :
    keyLt (5, 500) (determine_index (some (5, 500)) (some (6, 0)) 1 3) ∧
    keyLt (determine_index (some (5, 500)) (some (6, 0)) 1 3) (6, 0) :=
  allocate_strictly_between_of_room 5 500 6 0 1 3 (by decide) (by decide)
    (by decide) (by decide) (by decide) (by decide) (Or.inl (by decide))
    (Or.inr (Or.inr (Or.inl (by decide))))

theorem copySegMap_go (segs acc : SegMap) :
    segs.foldl (fun acc p => acc ++ [(p.1, p.2)]) acc = acc ++ segs := by
  induction segs generalizing acc with
  | nil => simp
  | cons p rest ih => simp [List.foldl_cons, ih]

theorem copySegMap_eq (segs : SegMap) : copySegMap segs = segs := by
  simpa using copySegMap_go segs []

/-- C4: merge replace-semantics — a non-empty overlay wins wholesale
(value equality, the copies are value-identical), an empty overlay keeps
the base. -/
theorem merge_segments_replace_semantics (base overlay : SegMap) :
    (overlay ≠ [] → merge_segments base overlay = overlay) ∧
    merge_segments base [] = base := by
  constructor
  · intro h
    have : !overlay.isEmpty := by
      simpa [List.isEmpty_iff] using h
    simp [merge_segments, this, copySegMap_eq]
  · simp [merge_segments, copySegMap_eq]

/-- Witness for C4 with a non-empty overlay. -/
theorem merge_segments_replace_semantics_witness :
    merge_segments [("1", { start := 0, stop := 1, text := "a" })]
        [("2", { start := 2, stop := 3, text := "b" })] =
      [("2", { start := 2, stop := 3, text := "b" })] :=
  (merge_segments_replace_semantics
      [("1", { start := 0, stop := 1, text := "a" })]
      [("2", { start := 2, stop := 3, text := "b" })]).1 (by decide)

/-- C10: the artifact filename (and the formatted index string) is
identical for `index_sub = 0` and absent `index_sub` — both fall into the
"omit the sub-index part" branch; hence `assign_indices` storing a fresh
sub-key of `0` as `None` never changes any artifact name. -/
theorem format_sub_zero_eq_absent (index : Option Int)
    (text extension : String) (d sd : Nat) (maxLen : Option Nat) :
    format_index_filename index (some 0) text extension d sd maxLen =
      format_index_filename index none text extension d sd maxLen ∧
    format_index_string index (some 0) d sd =
      format_index_string index none d sd := by
  constructor <;> simp [format_index_filename, format_index_string]

theorem deletePhase_deleted (merged : SegMap) (d sd : Nat) (ext : String)
    (maxLen : Option Nat) (previous : SegMap) (fs : List String)
    (hnd : (pendingDeletionNames merged previous d sd ext maxLen).Nodup) :
    (deletePhase merged d sd ext maxLen previous fs).1 =
      (pendingDeletionNames merged previous d sd ext maxLen).filter
        (fun x => decide (x ∈ fs)) := by
  induction previous generalizing fs with
  | nil => simp [deletePhase, pendingDeletionNames]
  | cons p rest ih =>
    obtain ⟨sid, prev⟩ := p
    by_cases hc : ((merged.lookup sid).isNone && prev.index.isSome) = true
    · have hpd : pendingDeletionNames merged ((sid, prev) :: rest) d sd ext maxLen =
          generate_filename prev d sd ext maxLen ::
            pendingDeletionNames merged rest d sd ext maxLen := by
        simp [pendingDeletionNames, hc]
      rw [hpd] at hnd ⊢
      have hnotmem := (List.nodup_cons.mp hnd).1
      have hndrest := (List.nodup_cons.mp hnd).2
      by_cases hmem : generate_filename prev d sd ext maxLen ∈ fs
      · have heq : (deletePhase merged d sd ext maxLen ((sid, prev) :: rest) fs).1 =
            generate_filename prev d sd ext maxLen ::
              (deletePhase merged d sd ext maxLen rest
                (fs.erase (generate_filename prev d sd ext maxLen))).1 := by
          simp [deletePhase, hc, hmem]
        rw [heq, ih _ hndrest]
        have hcongr : (pendingDeletionNames merged rest d sd ext maxLen).filter
            (fun x => decide (x ∈ fs.erase (generate_filename prev d sd ext maxLen))) =
            (pendingDeletionNames merged rest d sd ext maxLen).filter
              (fun x => decide (x ∈ fs)) := by
          refine List.filter_congr ?_
          intro x hx
          have hne : x ≠ generate_filename prev d sd ext maxLen := by
            intro h
            exact hnotmem (h ▸ hx)
          simp [List.mem_erase_of_ne hne]
        rw [hcongr]
        simp [hmem]
      · have heq : (deletePhase merged d sd ext maxLen ((sid, prev) :: rest) fs).1 =
            (deletePhase merged d sd ext maxLen rest fs).1 := by
          simp [deletePhase, hc, hmem]
        rw [heq, ih _ hndrest]
        simp [hmem]
    · have hpd : pendingDeletionNames merged ((sid, prev) :: rest) d sd ext maxLen =
          pendingDeletionNames merged rest d sd ext maxLen := by
        simp only [pendingDeletionNames, List.filter_cons]
        rw [if_neg hc]
      have heq : (deletePhase merged d sd ext maxLen ((sid, prev) :: rest) fs).1 =
          (deletePhase merged d sd ext maxLen rest fs).1 := by
        simp [deletePhase, hc]
      rw [hpd] at hnd ⊢
      rw [heq, ih _ hnd]

/-- C3 amended: in every pass — force or not, the source never guards step
1 on `force` — each previous entry whose id is absent from the working set
and that carries an index contributes exactly one delete action, for its
artifact name computed from the previous key, recorded exactly when that
artifact exists on the materialized side (assuming those artifact names
are pairwise distinct). -/
theorem export_diff_deleted_characterization
    (fs : List String) (merged previous : SegMap) (d sd : Nat)
    (ext : String) (maxLen : Option Nat) (force : Bool)
    (hnd : (pendingDeletionNames merged previous d sd ext maxLen).Nodup) :
    ((export_diff fs merged previous d sd ext maxLen force).1).deleted =
      (pendingDeletionNames merged previous d sd ext maxLen).filter
        (fun x => decide (x ∈ fs)) := by
  have h := deletePhase_deleted merged d sd ext maxLen previous fs hnd
  simpa [export_diff] using h

/-- Witness for the amended C3 at a concrete input (note `force = true`
and the delete is still emitted). -/
theorem export_diff_deleted_characterization_witness :
    ((export_diff [generate_filename segA 3 3 ".mp3" none] []
        [("1", segA)] 3 3 ".mp3" none true).1).deleted =
      (pendingDeletionNames [] [("1", segA)] 3 3 ".mp3" none).filter
        (fun x => decide (x ∈ [generate_filename segA 3 3 ".mp3" none])) :=
  export_diff_deleted_characterization
    [generate_filename segA 3 3 ".mp3" none] [] [("1", segA)]
    3 3 ".mp3" none true (by simp [pendingDeletionNames, segA])

/-- C3 counterexample: with `force = true`, a previous entry absent from
the working set is still deleted — the source's step 1 ignores `force`,
while the claim requires that no delete actions be emitted under force. -/
theorem force_mode_deletes_cex :
    ((export_diff [generate_filename segA 3 3 ".mp3" none] []
        [("1", segA)] 3 3 ".mp3" none true).1).deleted =
      [generate_filename segA 3 3 ".mp3" none] ∧
    ((export_diff [generate_filename segA 3 3 ".mp3" none] []
        [("1", segA)] 3 3 ".mp3" none true).1).deleted ≠ [] := by
  have h : ((export_diff [generate_filename segA 3 3 ".mp3" none] []
      [("1", segA)] 3 3 ".mp3" none true).1).deleted =
      [generate_filename segA 3 3 ".mp3" none] := by
    simp [export_diff, deletePhase, segA]
  exact ⟨h, by simp [h]⟩

/-- C5: per-entry classification in a non-force pass — for a working entry
whose id exists in `previous` with time unchanged (both differences within
`0.001`) but whose text differs or whose artifact name changed, the entry
contributes exactly one rename `(oldName, newName)` — and no export, no
delete, no skip — when the old artifact exists on the materialized side;
when it does not exist, exactly one materialize of `newName` is emitted
instead. -/
theorem rename_only_on_unchanged_time
    (previous : SegMap) (d sd : Nat) (ext : String) (maxLen : Option Nat)
    (st : StepState) (sid : String) (seg prev : Seg)
    (hprev : previous.lookup sid = some prev)
    (hstart : |seg.start - prev.start| ≤ 1 / 1000)
    (hstop : |seg.stop - prev.stop| ≤ 1 / 1000)
    (hchanged : seg.text ≠ prev.text ∨
      generate_filename prev d sd ext maxLen ≠
        generate_filename seg d sd ext maxLen) :
    (generate_filename prev d sd ext maxLen ∈ st.fs →
      processSegment previous false d sd ext maxLen st sid seg =
        { st with
          renamed := st.renamed ++ [(generate_filename prev d sd ext maxLen,
            generate_filename seg d sd ext maxLen)],
          result := st.result ++ [(sid, seg)],
          fs := generate_filename seg d sd ext maxLen ::
            st.fs.erase (generate_filename prev d sd ext maxLen) }) ∧
    (generate_filename prev d sd ext maxLen ∉ st.fs →
      processSegment previous false d sd ext maxLen st sid seg =
        { st with
          exported := st.exported ++ [generate_filename seg d sd ext maxLen],
          result := st.result ++ [(sid, seg)],
          fs := if generate_filename seg d sd ext maxLen ∈ st.fs then st.fs
                else generate_filename seg d sd ext maxLen :: st.fs }) := by
  have hnt : ¬ (|seg.start - prev.start| > 1 / 1000 ∨
      |seg.stop - prev.stop| > 1 / 1000) := by
    push_neg
    exact ⟨hstart, hstop⟩
  constructor
  · intro hmem
    simp only [processSegment, Bool.false_eq_true, if_false, hprev,
      if_neg hnt, if_pos hchanged, if_pos hmem]
  · intro hmem
    simp only [processSegment, Bool.false_eq_true, if_false, hprev,
      if_neg hnt, if_pos hchanged, if_neg hmem]

/-- Witness for C5: renaming branch at a concrete input. -/
theorem rename_only_on_unchanged_time_witness :
    processSegment [("1", segA)] false 3 3 ".mp3" none
        { exported := [], renamed := [], skipped := 0, result := [],
          fs := [generate_filename segA 3 3 ".mp3" none] } "1" segB =
      { exported := [], renamed := [(generate_filename segA 3 3 ".mp3" none,
          generate_filename segB 3 3 ".mp3" none)], skipped := 0,
        result := [("1", segB)],
        fs := [generate_filename segB 3 3 ".mp3" none] } := by
  have h := (rename_only_on_unchanged_time [("1", segA)] 3 3 ".mp3" none
    { exported := [], renamed := [], skipped := 0, result := [],
      fs := [generate_filename segA 3 3 ".mp3" none] } "1" segB segA
    (by simp) (by simp [segA, segB]) (by simp [segA, segB])
    (Or.inl (by simp [segA, segB]))).1 (by simp)
  simpa using h

theorem lookup_isSome_of_mem {l : SegMap} {p : String × Seg} (hp : p ∈ l) :
    (l.lookup p.1).isSome := by
  exact List.lookup_isSome_iff.mpr ⟨p, hp, by simp⟩

theorem lookup_eq_of_nodup_mem :
    ∀ {l : SegMap} {sid : String} {seg : Seg},
      (l.map Prod.fst).Nodup → (sid, seg) ∈ l → l.lookup sid = some seg := by
  intro l
  induction l with
  | nil => intro sid seg _ h; cases h
  | cons q rest ih =>
    intro sid seg hnd hmem
    obtain ⟨a, b⟩ := q
    rcases List.mem_cons.mp hmem with heq | hrest
    · cases heq
      exact List.lookup_cons_self
    · have hnd' : a ∉ rest.map Prod.fst ∧ (rest.map Prod.fst).Nodup := by
        have hcons : (a :: rest.map Prod.fst).Nodup := by simpa using hnd
        exact List.nodup_cons.mp hcons
      have hne : sid ≠ a := by
        intro h
        subst h
        exact hnd'.1 (List.mem_map.mpr ⟨(sid, seg), hrest, rfl⟩)
      have hstep : ((a, b) :: rest).lookup sid = rest.lookup sid := by
        simp [List.lookup_cons, beq_eq_false_iff_ne.mpr hne]
      rw [hstep]
      exact ih hnd'.2 hrest

theorem deletePhase_no_deletions (merged : SegMap) (d sd : Nat)
    (ext : String) (maxLen : Option Nat) :
    ∀ (previous : SegMap) (fs : List String),
      (∀ p ∈ previous, (merged.lookup p.1).isSome) →
      deletePhase merged d sd ext maxLen previous fs = ([], fs) := by
  intro previous
  induction previous with
  | nil => intro fs _; simp [deletePhase]
  | cons p rest ih =>
    intro fs h
    obtain ⟨sid, prev⟩ := p
    have hsome : (merged.lookup sid).isSome := h (sid, prev) (by simp)
    have hcond : ((merged.lookup sid).isNone && prev.index.isSome) = false := by
      have hnn : (merged.lookup sid).isNone = false := by
        cases hlk : merged.lookup sid with
        | none => rw [hlk] at hsome; simp at hsome
        | some v => simp
      simp [hnn]
    simp only [deletePhase, hcond, Bool.false_eq_true, if_false]
    exact ih fs (fun q hq => h q (by simp [hq]))

theorem assignGo_all_keyed (confirmed : List ConfEntry) (D : Nat) :
    ∀ (items : List (String × Seg)) (result : SegMap),
      (∀ p ∈ items, p.2.index.isSome) →
      assignGo confirmed D items result = result ++ items := by
  intro items
  induction items with
  | nil => intro result _; simp [assignGo]
  | cons p rest ih =>
    intro result h
    obtain ⟨sid, seg⟩ := p
    obtain ⟨i, hi⟩ := Option.isSome_iff_exists.mp
      (show seg.index.isSome from h (sid, seg) (by simp))
    simp only [assignGo, hi]
    rw [ih (result ++ [(sid, seg)]) (fun q hq => h q (by simp [hq]))]
    simp

theorem processSegment_skip (previous : SegMap) (d sd : Nat) (ext : String)
    (maxLen : Option Nat) (st : StepState) (sid : String) (seg : Seg)
    (hprev : previous.lookup sid = some seg) :
    processSegment previous false d sd ext maxLen st sid seg =
      { st with skipped := st.skipped + 1,
                result := st.result ++ [(sid, seg)] } := by
  have hnt : ¬ (|seg.start - seg.start| > 1 / 1000 ∨
      |seg.stop - seg.stop| > 1 / 1000) := by
    simp
  have hnc : ¬ (seg.text ≠ seg.text ∨
      generate_filename seg d sd ext maxLen ≠
        generate_filename seg d sd ext maxLen) := by
    simp
  simp only [processSegment, Bool.false_eq_true, if_false, hprev,
    if_neg hnt, if_neg hnc]

theorem processList_all_skip (previous : SegMap) (d sd : Nat) (ext : String)
    (maxLen : Option Nat) :
    ∀ (items : List (String × Seg)) (st : StepState),
      (∀ p ∈ items, previous.lookup p.1 = some p.2) →
      processList previous false d sd ext maxLen items st =
        { st with skipped := st.skipped + items.length,
                  result := st.result ++ items } := by
  intro items
  induction items with
  | nil => intro st _; simp [processList]
  | cons p rest ih =>
    intro st h
    obtain ⟨sid, seg⟩ := p
    have hskip := processSegment_skip previous d sd ext maxLen st sid seg
      (h (sid, seg) (by simp))
    simp only [processList, hskip]
    rw [ih _ (fun q hq => h q (by simp [hq]))]
    simp
    omega

/-- C6: idempotence — reconciling a working set equal to the previous
canonical record (empty overlay, so the merge returns the previous
segments; ids unique; every previous entry keyed) produces zero
materialize, zero rename and zero delete actions, and skips every
segment. -/
theorem export_diff_idempotent_second_pass
    (previous : SegMap) (fs : List String) (d sd : Nat) (ext : String)
    (maxLen : Option Nat)
    (hnd : (previous.map Prod.fst).Nodup)
    (hkeyed : ∀ p ∈ previous, p.2.index.isSome) :
    ((export_diff fs (merge_segments previous []) previous d sd ext maxLen
        false).1).exported = [] ∧
    ((export_diff fs (merge_segments previous []) previous d sd ext maxLen
        false).1).renamed = [] ∧
    ((export_diff fs (merge_segments previous []) previous d sd ext maxLen
        false).1).deleted = [] ∧
    ((export_diff fs (merge_segments previous []) previous d sd ext maxLen
        false).1).skipped = previous.length := by
  have hm : merge_segments previous [] = previous := by
    simp [merge_segments, copySegMap_eq]
  rw [hm]
  have hdel : deletePhase previous d sd ext maxLen previous fs = ([], fs) :=
    deletePhase_no_deletions previous d sd ext maxLen previous fs
      (fun p hp => lookup_isSome_of_mem hp)
  have hsortmem : ∀ p ∈ previous.mergeSort
      (fun a b => decide (a.2.start ≤ b.2.start)), p ∈ previous := by
    intro p hp
    exact List.mem_mergeSort.mp hp
  have hidx : assign_indices previous (some previous) sd =
      previous.mergeSort (fun a b => decide (a.2.start ≤ b.2.start)) := by
    unfold assign_indices
    rw [assignGo_all_keyed _ _ _ []
      (fun p hp => hkeyed p (hsortmem p hp))]
    simp
  have hproc := processList_all_skip previous d sd ext maxLen
    (previous.mergeSort (fun a b => decide (a.2.start ≤ b.2.start)))
    { exported := [], renamed := [], skipped := 0, result := [], fs := fs }
    (fun p hp => lookup_eq_of_nodup_mem hnd (by
      have := hsortmem p hp
      simpa using this))
  simp only [export_diff, Bool.false_eq_true, if_false, hdel, hidx, hproc]
  simp [List.length_mergeSort]

/-- Witness for C6 at a concrete one-segment previous record. -/
theorem export_diff_idempotent_second_pass_witness :
    ((export_diff [generate_filename segA 3 3 ".mp3" none]
        (merge_segments [("1", segA)] []) [("1", segA)]
        3 3 ".mp3" none false).1).exported = [] ∧
    ((export_diff [generate_filename segA 3 3 ".mp3" none]
        (merge_segments [("1", segA)] []) [("1", segA)]
        3 3 ".mp3" none false).1).renamed = [] ∧
    ((export_diff [generate_filename segA 3 3 ".mp3" none]
        (merge_segments [("1", segA)] []) [("1", segA)]
        3 3 ".mp3" none false).1).deleted = [] ∧
    ((export_diff [generate_filename segA 3 3 ".mp3" none]
        (merge_segments [("1", segA)] []) [("1", segA)]
        3 3 ".mp3" none false).1).skipped = [("1", segA)].length :=
  export_diff_idempotent_second_pass [("1", segA)]
    [generate_filename segA 3 3 ".mp3" none] 3 3 ".mp3" none
    (by simp) (by simp [segA])

theorem ok_bind {α β : Type} (a : α) (f : α → Except LoadError β) :
    (do let x ← Except.ok a; f x) = f a := rfl

theorem migrateSegs_ok :
    ∀ (l : List RawSeg) (i : Nat),
      (∀ seg ∈ l, seg.start.isSome ∧ seg.stop.isSome ∧ seg.text.isSome) →
      migrateSegs i l = Except.ok (migratedSegmentsSpec i l) := by
  intro l
  induction l with
  | nil => intro i _; simp [migrateSegs, migratedSegmentsSpec]
  | cons seg rest ih =>
    intro i h
    obtain ⟨hs1, hs2, hs3⟩ := h seg (by simp)
    obtain ⟨s, hs⟩ := Option.isSome_iff_exists.mp hs1
    obtain ⟨e, he⟩ := Option.isSome_iff_exists.mp hs2
    obtain ⟨t, ht⟩ := Option.isSome_iff_exists.mp hs3
    have hrest := ih (i + 1) (fun q hq => h q (by simp [hq]))
    have hseg :
        ({ start := some s, stop := some e, text := some t,
           index := seg.index, index_sub := seg.index_sub } : RawSeg) =
          seg := by
      rw [← hs, ← he, ← ht]
    simp [migrateSegs, reqField, hs, he, ht, hrest, migratedSegmentsSpec,
      hseg, ok_bind]

theorem migratedSegmentsSpec_fst :
    ∀ (l : List RawSeg) (i : Nat),
      (migratedSegmentsSpec i l).map Prod.fst =
        (List.range l.length).map (fun j => toString (j + i)) := by
  intro l
  induction l with
  | nil => intro i; simp [migratedSegmentsSpec]
  | cons seg rest ih =>
    intro i
    rw [show (seg :: rest).length = rest.length + 1 from rfl,
      List.range_succ_eq_map]
    simp only [migratedSegmentsSpec, List.map_cons, ih (i + 1), List.map_map]
    refine congrArg₂ List.cons (by simp) ?_
    refine List.map_congr_left ?_
    intro j _
    simp only [Function.comp_apply]
    refine congrArg toString (by omega)

theorem migratedSegmentsSpec_snd :
    ∀ (l : List RawSeg) (i : Nat),
      (migratedSegmentsSpec i l).map Prod.snd = l := by
  intro l
  induction l with
  | nil => intro i; simp [migratedSegmentsSpec]
  | cons seg rest ih => intro i; simp [migratedSegmentsSpec, ih (i + 1)]

/-- C8 amended: migrating a legacy record (no version; segments a list of
`k` entries each carrying start, end, text and a flat integer index)
yields a version-2 record whose segment ids are exactly `"1"`..`"k"` in
list order, each migrated segment preserving start, end, text and the flat
index — with `index_sub` left `None` (null), not `0`: the source copies
`seg.get("index_sub")` instead of calling `migrate_old_index`, and the
null sub-key is treated as `0` downstream. -/
theorem migrate_transcript_legacy_shape
    (old_data : RawRecord) (l : List RawSeg) (sf : String)
    (hver : old_data.version = none)
    (hsegs : old_data.segments = some (RawSegments.asList l))
    (hsf : old_data.source_file = some sf)
    (hfields : ∀ seg ∈ l, seg.start.isSome ∧ seg.stop.isSome ∧
      seg.text.isSome ∧ seg.index.isSome ∧ seg.index_sub = none) :
    migrate_transcript old_data = Except.ok
      { version := some 2, source_file := some sf,
        output_format := some
          { index_digits := old_data.index_digits.getD 3,
            index_sub_digits := 3,
            filename_template := "{index}_{basename}",
            margin_before := 1 / 10, margin_after := 2 / 10 },
        segments := some (RawSegments.asDict (migratedSegmentsSpec 1 l)),
        index_digits := none } ∧
    (migratedSegmentsSpec 1 l).map Prod.fst =
      (List.range l.length).map (fun j => toString (j + 1)) ∧
    (migratedSegmentsSpec 1 l).map Prod.snd = l := by
  refine ⟨?_, migratedSegmentsSpec_fst l 1, migratedSegmentsSpec_snd l 1⟩
  have hmig := migrateSegs_ok l 1
    (fun seg hseg => ⟨(hfields seg hseg).1, (hfields seg hseg).2.1,
      (hfields seg hseg).2.2.1⟩)
  simp [migrate_transcript, hsegs, hsf, hmig, reqField, ok_bind]

/-- Witness for the amended C8 at the sample legacy record. -/
theorem migrate_transcript_legacy_shape_witness :
    migrate_transcript legacyRec = Except.ok
      { version := some 2, source_file := some "src.wav",
        output_format := some
          { index_digits := legacyRec.index_digits.getD 3,
            index_sub_digits := 3,
            filename_template := "{index}_{basename}",
            margin_before := 1 / 10, margin_after := 2 / 10 },
        segments := some (RawSegments.asDict (migratedSegmentsSpec 1
          [rawSegA])),
        index_digits := none } ∧
    (migratedSegmentsSpec 1 [rawSegA]).map Prod.fst =
      (List.range ([rawSegA] : List RawSeg).length).map
        (fun j => toString (j + 1)) ∧
    (migratedSegmentsSpec 1 [rawSegA]).map Prod.snd = [rawSegA] :=
  migrate_transcript_legacy_shape legacyRec [rawSegA] "src.wav"
    rfl rfl rfl (by simp [rawSegA])

/-- C8 counterexample: the migrated segment stores `index_sub = None`
(null), not the claimed `(index, 0)` — `migrate_transcript` copies
`seg.get("index_sub")` and never calls `migrate_old_index`. -/
theorem migrate_index_sub_cex :
    migrate_transcript legacyRec = Except.ok
      { version := some 2, source_file := some "src.wav",
        output_format := some
          { index_digits := 3, index_sub_digits := 3,
            filename_template := "{index}_{basename}",
            margin_before := 1 / 10, margin_after := 2 / 10 },
        segments := some (RawSegments.asDict
          [("1", rawSegA)]),
        index_digits := none } ∧
    rawSegA.index_sub = none ∧ rawSegA.index_sub ≠ some 0 := by
  refine ⟨rfl, rfl, by simp [rawSegA]⟩

theorem validateSegsV2_ok_iff :
    ∀ d : List (String × RawSeg),
      validateSegsV2 d = Except.ok () ↔
        ∀ p ∈ d, p.2.start.isSome ∧ p.2.stop.isSome ∧ p.2.text.isSome := by
  intro d
  induction d with
  | nil => simp [validateSegsV2]
  | cons p rest ih =>
    obtain ⟨sid, seg⟩ := p
    by_cases h1 : seg.start.isNone
    · simp [validateSegsV2, h1, Option.isNone_iff_eq_none.mp h1]
    · by_cases h2 : seg.stop.isNone
      · simp [validateSegsV2, h1, h2, Option.isNone_iff_eq_none.mp h2]
      · by_cases h3 : seg.text.isNone
        · simp [validateSegsV2, h1, h2, h3, Option.isNone_iff_eq_none.mp h3]
        · have e1 : seg.start.isSome := by
            cases h : seg.start
            · exact absurd (by simp [h]) h1
            · simp
          have e2 : seg.stop.isSome := by
            cases h : seg.stop
            · exact absurd (by simp [h]) h2
            · simp
          have e3 : seg.text.isSome := by
            cases h : seg.text
            · exact absurd (by simp [h]) h3
            · simp
          simp [validateSegsV2, h1, h2, h3, ih, e1, e2, e3]

theorem validateSegsV2_error_schema :
    ∀ d : List (String × RawSeg),
      validateSegsV2 d = Except.ok () ∨
        ∃ msg, validateSegsV2 d = Except.error (LoadError.schemaError msg) := by
  intro d
  induction d with
  | nil => exact Or.inl rfl
  | cons p rest ih =>
    obtain ⟨sid, seg⟩ := p
    by_cases h1 : seg.start.isNone
    · exact Or.inr ⟨"Segment missing start field: " ++ sid,
        by simp [validateSegsV2, h1]⟩
    · by_cases h2 : seg.stop.isNone
      · exact Or.inr ⟨"Segment missing end field: " ++ sid,
          by simp [validateSegsV2, h1, h2]⟩
      · by_cases h3 : seg.text.isNone
        · exact Or.inr ⟨"Segment missing text field: " ++ sid,
            by simp [validateSegsV2, h1, h2, h3]⟩
        · have hstep : validateSegsV2 ((sid, seg) :: rest) =
              validateSegsV2 rest := by
            simp [validateSegsV2, h1, h2, h3]
          rw [hstep]
          exact ih

/-- C9 amended: the loader fails with `SchemaError` when the version is
present and not 2, and also when the version is 2 but the record is
malformed (missing `source_file` or `segments`, segments not an object, a
segment missing `start`/`end`/`text`); an absent version dispatches to
legacy migration; a valid version-2 record is passed through completely
unchanged (so no partial migration is ever applied on the v2 path). -/
theorem load_transcript_version_dispatch (data : RawRecord) :
    (∀ v, data.version = some v → v ≠ 2 →
      load_transcript_json data = Except.error (LoadError.schemaError
        ("Unsupported JSON version: " ++ toString v))) ∧
    (data.version = none →
      load_transcript_json data = migrate_transcript data) ∧
    (data.version = some 2 → validV2 data →
      load_transcript_json data = Except.ok data) ∧
    (data.version = some 2 → ¬ validV2 data →
      ∃ msg, load_transcript_json data =
        Except.error (LoadError.schemaError msg)) := by
  refine ⟨?_, ?_, ?_, ?_⟩
  · intro v hv hne
    simp [load_transcript_json, hv, hne]
  · intro hv
    simp [load_transcript_json, hv]
  · intro hv hvalid
    obtain ⟨hsf, d, hsegs, hall⟩ := hvalid
    have hval : validate_transcript_v2 data = Except.ok () := by
      have hnn : data.source_file.isNone = false := by
        cases h : data.source_file
        · rw [h] at hsf; simp at hsf
        · simp
      simp only [validate_transcript_v2, hv, hsegs, hnn]
      simp [(validateSegsV2_ok_iff d).mpr hall]
    simp [load_transcript_json, hv, hval]
  · intro hv hnv
    have hfail : ∃ msg, validate_transcript_v2 data =
        Except.error (LoadError.schemaError msg) := by
      by_cases hsf : data.source_file.isSome
      · have hnn : data.source_file.isNone = false := by
          cases h : data.source_file
          · rw [h] at hsf; simp at hsf
          · simp
        cases hsegs : data.segments with
        | none =>
          exact ⟨"JSON missing segments field",
            by simp [validate_transcript_v2, hv, hnn, hsegs]⟩
        | some ss =>
          cases ss with
          | asList l =>
            exact ⟨"segments must be an object (dict)",
              by simp [validate_transcript_v2, hv, hnn, hsegs]⟩
          | asDict dd =>
            rcases validateSegsV2_error_schema dd with hok | ⟨msg, herr⟩
            · exact absurd ⟨hsf, dd, hsegs,
                (validateSegsV2_ok_iff dd).mp hok⟩ hnv
            · exact ⟨msg, by simp [validate_transcript_v2, hv, hnn, hsegs, herr]⟩
      · have hnn : data.source_file.isNone = true := by
          cases h : data.source_file
          · simp
          · rw [h] at hsf; simp at hsf
        exact ⟨"JSON missing source_file field",
          by simp [validate_transcript_v2, hv, hnn]⟩
    obtain ⟨msg, hmsg⟩ := hfail
    exact ⟨msg, by simp [load_transcript_json, hv, hmsg]⟩

/-- Witness for the amended C9: a valid version-2 record is passed
through unchanged. -/
theorem load_transcript_version_dispatch_witness :
    load_transcript_json v2Valid = Except.ok v2Valid :=
  (load_transcript_version_dispatch v2Valid).2.2.1 rfl
    ⟨by simp [v2Valid],
      [("1", { start := some 0, stop := some 1, text := some "a" })],
      by simp [v2Valid], by simp⟩

/-- C9 counterexample: a record whose version IS 2 still fails with a
`SchemaError` (missing `source_file`), so "fails with SchemaError exactly
when version is present and not 2" is false in the only-if direction. -/
theorem load_schema_error_cex :
    load_transcript_json v2MissingSource =
      Except.error (LoadError.schemaError "JSON missing source_file field") ∧
    v2MissingSource.version = some 2 := by
  exact ⟨rfl, rfl⟩
